import Mathlib

/-!
Verification of the batch/retry metadata-fetcher scripts of the
`realestatebr` repository (`data-raw/get_bacen_metadata.py` and
`data-raw/get_bacen_metadata_robust.py`).

The two scripts are shallowly embedded: the external `sgs` client is an
opaque service whose per-call behaviour is a parameter (indexed by a call
counter, so that every call may independently succeed or raise), `raise`
is modelled as `Option.none`, and every remote interaction is logged into
an event trace.  All state that the Python scripts accumulate
(`all_data`, `successful_series`, `failed_series`, `metadata_list`) is
threaded explicitly.
-/

set_option autoImplicit false

namespace Bacen

/-- A series code from the input CSV (an opaque identifier; the real ones
are integers). -/
abbrev Code := Nat

/-- One observation of a series (opaque payload; only presence/count
matters to the scripts). -/
abbrev Obs := Nat

/-- A locale selector for metadata requests (`sgs.metadata(...,
language="pt")`). -/
inductive Lang where
  | en
  | pt
deriving DecidableEq, Repr

/-- An observation table: the Python `dict` produced by
`dataframe.to_dict()` / accumulated in `all_data`, keyed by series code,
with one observation column per code. -/
abbrev Table := List (Code × List Obs)

/-- One raw metadata response record, as returned by `sgs.metadata`:
fields may be absent (Python `dict.get` with a default). -/
structure MetaResp where
  title : Option String
  unit : Option String
  source : Option String
deriving DecidableEq, Repr

/-- The flattened bilingual metadata record built by the robust script
(`meta_record` literal, lines 48-56). -/
structure MetaRecord where
  code : Code
  title_en : String
  title_pt : String
  unit_en : String
  unit_pt : String
  source_en : String
  source_pt : String
deriving DecidableEq, Repr

/-- Remote interaction events, recorded in order of occurrence. -/
inductive Ev where
  /-- A data request (`sgs.dataframe(ids, start, end)`). -/
  | dataReq (ids : List Code)
  /-- A bulk metadata request over a combined table
  (`sgs.metadata(data, ...)`, batch script). -/
  | metaReq (ids : List Code) (lang : Lang)
  /-- A metadata request over one fetched series
  (`sgs.metadata(series_data, ...)`, robust script). -/
  | metaReqS (rows : List Obs) (lang : Lang)
  /-- A throttling delay (`time.sleep(n)`). -/
  | sleep (n : Nat)
deriving DecidableEq, Repr

/-- First-match lookup in an observation table (Python `dict`
subscript). -/
def lookupT : Table → Code → Option (List Obs)
  | [], _ => none
  | (k, v) :: t, c => if k = c then some v else lookupT t c

/-- Set one key of an observation table (Python `d[k] = v`): replace the
first entry with that key, or append a new entry. -/
def setKey : Table → Code → List Obs → Table
  | [], k, v => [(k, v)]
  | (k', v') :: t, k, v =>
      if k' = k then (k, v) :: t else (k', v') :: setKey t k v

/-- Python `dict.update(other)`: set every key of `other` in order. -/
def updateTable (t other : Table) : Table :=
  other.foldl (fun acc kv => setKey acc kv.1 kv.2) t

/-- The key column of a table. -/
def keysOf (t : Table) : List Code := t.map Prod.fst

/-- The data requests of a trace, in order. -/
def dataReqs : List Ev → List (List Code)
  | [] => []
  | Ev.dataReq ids :: tr => ids :: dataReqs tr
  | _ :: tr => dataReqs tr

/-- The data requests and sleeps of a trace, in order (everything the
throttling behaviour is about). -/
def throttleEvents : List Ev → List Ev
  | [] => []
  | Ev.dataReq ids :: tr => Ev.dataReq ids :: throttleEvents tr
  | Ev.sleep n :: tr => Ev.sleep n :: throttleEvents tr
  | _ :: tr => throttleEvents tr

/-! ## Embedding of `get_bacen_metadata_robust.py`

The script processes codes one by one: an optional preliminary test loop
over the first three codes, then a main loop limited to the first 20
codes with a 1-second delay before every iteration except the first.
`successful_series`, `failed_series` and `metadata_list` are accumulated;
in addition we keep the (ghost) combined observation table obtained by
merging each successfully fetched series, which the consolidated
procedure of the specification returns. -/

/-- The remote `sgs` client as seen by the robust script.  The first
argument is the run-wide remote-call counter, so that each call may
behave differently; a `none` result models a raised exception. -/
structure RService where
  /-- `sgs.dataframe([code], start, end)`: the rows of the fetched
  series, or an exception. -/
  fetchSingle : Nat → Code → Option (List Obs)
  /-- `sgs.metadata(series_data, language)`: a list of raw metadata
  records, or an exception. -/
  fetchMeta : Nat → List Obs → Lang → Option (List MetaResp)

/-- The mutable state of one run of the robust script. -/
structure RState where
  calls : Nat
  successful : List Code
  failed : List Code
  metadataList : List MetaRecord
  obsTable : Table
  trace : List Ev
deriving Repr

/-- Initial robust-script state with a given starting call counter. -/
def initRState (n : Nat) : RState :=
  { calls := n
    successful := []
    failed := []
    metadataList := []
    obsTable := []
    trace := [] }

/-- Python `meta[0].get(field, "")` on an optional head record. -/
def optField (m : Option MetaResp) (f : MetaResp → Option String) : String :=
  match m with
  | none => ""
  | some r => (f r).getD ""

/-- The `meta_record` dictionary literal of the robust script (lines
48-56): English fields from `meta_en[0]`, Portuguese fields from
`meta_pt[0]` when `meta_pt` is non-empty and `""` otherwise. -/
def mkRecord (code : Code) (en pt : List MetaResp) : MetaRecord :=
  { code := code
    title_en := optField en.head? (fun r => r.title)
    title_pt := optField pt.head? (fun r => r.title)
    unit_en := optField en.head? (fun r => r.unit)
    unit_pt := optField pt.head? (fun r => r.unit)
    source_en := optField en.head? (fun r => r.source)
    source_pt := optField pt.head? (fun r => r.source) }

/-- One iteration of the robust script's main loop (lines 30-71), at
enumeration index `i` for code `code`. -/
def processCode (s : RService) (i : Nat) (code : Code) (st0 : RState) : RState :=
  let tr0 := if 0 < i then st0.trace ++ [Ev.sleep 1] else st0.trace
  let rData := s.fetchSingle st0.calls code
  let st1 : RState :=
    { st0 with calls := st0.calls + 1, trace := tr0 ++ [Ev.dataReq [code]] }
  match rData with
  | none => { st1 with failed := st1.failed ++ [code] }
  | some rows =>
    if 0 < rows.length && !rows.isEmpty then
      let st2 : RState := { st1 with obsTable := setKey st1.obsTable code rows }
      let rEn := s.fetchMeta st2.calls rows Lang.en
      let st3 : RState :=
        { st2 with calls := st2.calls + 1
                   trace := st2.trace ++ [Ev.metaReqS rows Lang.en] }
      match rEn with
      | none => { st3 with successful := st3.successful ++ [code] }
      | some en =>
        let rPt := s.fetchMeta st3.calls rows Lang.pt
        let st4 : RState :=
          { st3 with calls := st3.calls + 1
                     trace := st3.trace ++ [Ev.metaReqS rows Lang.pt] }
        match rPt with
        | none => { st4 with successful := st4.successful ++ [code] }
        | some pt =>
          let st5 : RState :=
            if !en.isEmpty && 0 < en.length then
              { st4 with metadataList := st4.metadataList ++ [mkRecord code en pt] }
            else st4
          { st5 with successful := st5.successful ++ [code] }
    else { st1 with failed := st1.failed ++ [code] }

/-- The robust script's main loop (lines 26-71): iterate over the codes
with their enumeration index, stopping as soon as the index reaches 20
(`if i >= 20: break`). -/
def mainLoop (s : RService) : List Code → Nat → RState → RState
  | [], _, st => st
  | code :: rest, i, st =>
    if 20 ≤ i then st
    else mainLoop s rest (i + 1) (processCode s i code st)

/-- One iteration of the preliminary test loop: a single-code data
request whose outcome is only printed, with every exception caught, so
only the call counter and the trace change. -/
def testStep (st : RState) (c : Code) : RState :=
  { st with calls := st.calls + 1, trace := st.trace ++ [Ev.dataReq [c]] }

/-- The preliminary test loop (lines 14-19): one single-code data
request for each of the first three codes. -/
def testLoop (s : RService) (codes : List Code) (st : RState) : RState :=
  (codes.take 3).foldl testStep st

/-- A full run of `get_bacen_metadata_robust.py` on an input code list. -/
def runRobust (s : RService) (codes : List Code) : RState :=
  mainLoop s codes 0 (testLoop s codes (initRState 0))

/-! ## Embedding of `get_bacen_metadata.py`

The batch script partitions the code list into consecutive groups of 10,
tries one batched request per group, and on a raised exception falls
back to one request per code of the group; afterwards, if the combined
frame `pd.DataFrame(all_data)` has at least one row, it requests bulk
metadata in both locales.  Those two bulk metadata calls are not inside
any `try`, so a raise there aborts the script: the run result carries a
`crashed` flag. -/

/-- The remote `sgs` client as seen by the batch script. -/
structure BService where
  /-- `sgs.dataframe(ids, start, end).to_dict()`: an observation table
  keyed by code, or an exception. -/
  fetchData : Nat → List Code → Option Table
  /-- `sgs.metadata(data, language)` over the combined frame: a list of
  raw metadata records, or an exception. -/
  fetchMetaB : Nat → Table → Lang → Option (List MetaResp)

/-- The mutable state of one run of the batch script.  `failedB` records
the codes whose individual fallback request also raised (the script
reports them as `Failed individual series`). -/
structure BState where
  calls : Nat
  allData : Table
  failedB : List Code
  metaEn : Option (List MetaResp)
  metaPt : Option (List MetaResp)
  trace : List Ev
deriving Repr

/-- Initial batch-script state. -/
def initBState : BState :=
  { calls := 0
    allData := []
    failedB := []
    metaEn := none
    metaPt := none
    trace := [] }

/-- Partition a list into consecutive groups of at most `g` elements
(`codes_list[i:i+batch_size]` for `i in range(0, len, batch_size)`). -/
def chunks (g : Nat) (l : List Code) : List (List Code) :=
  if h : l = [] ∨ g = 0 then []
  else l.take g :: chunks g (l.drop g)
termination_by l.length
decreasing_by
  push_neg at h
  have hl : 0 < l.length := by
    cases l with
    | nil => exact absurd rfl h.1
    | cons a t => simp
  have hg : 0 < g := Nat.pos_of_ne_zero h.2
  simp [List.length_drop]
  omega

/-- The per-code fallback loop executed when a batched request raises
(lines 27-33): one request per code, merging successes into `all_data`
and recording raises in the failed list. -/
def fallbackLoop (s : BService) : List Code → BState → BState
  | [], st => st
  | c :: rest, st =>
    let r := s.fetchData st.calls [c]
    let st1 : BState :=
      { st with calls := st.calls + 1, trace := st.trace ++ [Ev.dataReq [c]] }
    let st2 : BState :=
      match r with
      | some tbl => { st1 with allData := updateTable st1.allData tbl }
      | none => { st1 with failedB := st1.failedB ++ [c] }
    fallbackLoop s rest st2

/-- Processing of one group (lines 20-33): a batched request, merged on
success, with per-code fallback on a raise. -/
def processBatch (s : BService) (batch : List Code) (st : BState) : BState :=
  let r := s.fetchData st.calls batch
  let st1 : BState :=
    { st with calls := st.calls + 1, trace := st.trace ++ [Ev.dataReq batch] }
  match r with
  | some tbl => { st1 with allData := updateTable st1.allData tbl }
  | none => fallbackLoop s batch st1

/-- The batch loop over all groups (lines 16-33). -/
def batchLoop (s : BService) : List (List Code) → BState → BState
  | [], st => st
  | b :: rest, st => batchLoop s rest (processBatch s b st)

/-- Whether `len(pd.DataFrame(all_data)) > 0`: the combined frame has at
least one row, i.e. some entry of the table has at least one
observation. -/
def numRowsPos (t : Table) : Bool :=
  t.any (fun kv => !kv.2.isEmpty)

/-- The epilogue of the batch script (lines 36-53): if the combined
frame is non-empty, request bulk metadata in both locales.  These calls
are outside every `try`; a raise aborts the script, signalled by the
returned flag. -/
def finishBatch (s : BService) (st : BState) : BState × Bool :=
  if numRowsPos st.allData then
    let rEn := s.fetchMetaB st.calls st.allData Lang.en
    let st1 : BState :=
      { st with calls := st.calls + 1
                trace := st.trace ++ [Ev.metaReq (keysOf st.allData) Lang.en] }
    match rEn with
    | none => (st1, true)
    | some en =>
      let rPt := s.fetchMetaB st1.calls st1.allData Lang.pt
      let st2 : BState :=
        { st1 with calls := st1.calls + 1
                   trace := st1.trace ++ [Ev.metaReq (keysOf st1.allData) Lang.pt] }
      match rPt with
      | none => (st2, true)
      | some pt => ({ st2 with metaEn := some en, metaPt := some pt }, false)
  else (st, false)

/-- A full run of `get_bacen_metadata.py` on an input code list: the
final state together with a flag telling whether an uncaught exception
aborted the script. -/
def runBatchScript (s : BService) (codes : List Code) : BState × Bool :=
  finishBatch s (batchLoop s (chunks 10 codes) initBState)

/-- Merge a list of group-result tables into one combined table, in
order (`all_data.update(...)` per group, starting from the empty
dict). -/
def mergeAll (ts : List Table) : Table :=
  ts.foldl updateTable []

/-- Concatenation of all groups of a partition. -/
def joinAll : List (List Code) → List Code
  | [] => []
  | b :: bs => b ++ joinAll bs

/-- Disjointness of the key sets of two tables. -/
def DisjKeys (t u : Table) : Prop :=
  ∀ k ∈ keysOf t, k ∉ keysOf u

instance (t u : Table) : Decidable (DisjKeys t u) := by
  unfold DisjKeys
  infer_instance

/-! ## Lemmas about tables and merging -/

theorem lookupT_setKey (t : Table) (k : Code) (v : List Obs) (c : Code) :
    lookupT (setKey t k v) c = if k = c then some v else lookupT t c := by
  induction t with
  | nil => simp [setKey, lookupT]
  | cons kv rest ih =>
    obtain ⟨k', v'⟩ := kv
    by_cases hk : k' = k
    · subst hk
      by_cases hc : k' = c <;> simp [setKey, lookupT, hc]
    · by_cases hc : k' = c
      · subst hc
        have hkc : ¬k = k' := fun h => hk h.symm
        simp [setKey, lookupT, hk, hkc]
      · simp [setKey, lookupT, hk, hc, ih]

theorem updateTable_nil (a : Table) : updateTable a [] = a := rfl

theorem updateTable_cons (a : Table) (k : Code) (v : List Obs) (b : Table) :
    updateTable a ((k, v) :: b) = updateTable (setKey a k v) b := rfl

theorem updateTable_single (a : Table) (k : Code) (v : List Obs) :
    updateTable a [(k, v)] = setKey a k v := rfl

theorem isSome_lookupT_setKey (t : Table) (k : Code) (v : List Obs) (c : Code)
    (h : (lookupT t c).isSome = true) :
    (lookupT (setKey t k v) c).isSome = true := by
  rw [lookupT_setKey]
  by_cases hk : k = c <;> simp [hk, h]

theorem isSome_lookupT_updateTable (a b : Table) (c : Code)
    (h : (lookupT a c).isSome = true) :
    (lookupT (updateTable a b) c).isSome = true := by
  induction b generalizing a with
  | nil => exact h
  | cons kv rest ih =>
    obtain ⟨k, v⟩ := kv
    rw [updateTable_cons]
    exact ih _ (isSome_lookupT_setKey _ _ _ _ h)

theorem mem_keysOf_iff (t : Table) (c : Code) :
    c ∈ keysOf t ↔ (lookupT t c).isSome = true := by
  induction t with
  | nil => simp [keysOf, lookupT]
  | cons kv rest ih =>
    obtain ⟨k, v⟩ := kv
    have hkeys : keysOf ((k, v) :: rest) = k :: keysOf rest := rfl
    rw [hkeys, List.mem_cons, ih]
    by_cases hk : k = c
    · subst hk
      simp [lookupT]
    · have hck : ¬c = k := fun h => hk h.symm
      simp [lookupT, hk, hck]

theorem lookupT_eq_none_of_not_mem (t : Table) (c : Code)
    (h : c ∉ keysOf t) : lookupT t c = none := by
  rcases hl : lookupT t c with _ | v
  · rfl
  · exact absurd ((mem_keysOf_iff t c).mpr (by simp [hl])) h

theorem lookupT_updateTable (a b : Table) (c : Code)
    (hnd : (keysOf b).Nodup) :
    lookupT (updateTable a b) c =
      match lookupT b c with
      | some v => some v
      | none => lookupT a c := by
  induction b generalizing a with
  | nil => simp [updateTable_nil, lookupT]
  | cons kv rest ih =>
    obtain ⟨k, v⟩ := kv
    have hnd' : (keysOf rest).Nodup := (List.nodup_cons.mp hnd).2
    have hkmem : k ∉ keysOf rest := (List.nodup_cons.mp hnd).1
    rw [updateTable_cons, ih _ hnd']
    by_cases hk : k = c
    · subst hk
      have : lookupT rest k = none := lookupT_eq_none_of_not_mem _ _ hkmem
      simp [lookupT, this, lookupT_setKey]
    · simp [lookupT, hk, lookupT_setKey]

/-! ## Lemmas about traces -/

theorem dataReqs_append (a b : List Ev) :
    dataReqs (a ++ b) = dataReqs a ++ dataReqs b := by
  induction a with
  | nil => simp [dataReqs]
  | cons e rest ih => cases e <;> simp [dataReqs, ih]

theorem throttleEvents_append (a b : List Ev) :
    throttleEvents (a ++ b) = throttleEvents a ++ throttleEvents b := by
  induction a with
  | nil => simp [throttleEvents]
  | cons e rest ih => cases e <;> simp [throttleEvents, ih]

/-! ## Per-iteration lemmas for the robust script -/

theorem processCode_sets (s : RService) (i : Nat) (code : Code) (st : RState) :
    ((processCode s i code st).successful = st.successful ++ [code] ∧
      (processCode s i code st).failed = st.failed) ∨
    ((processCode s i code st).successful = st.successful ∧
      (processCode s i code st).failed = st.failed ++ [code]) := by
  simp only [processCode]
  rcases hd : s.fetchSingle st.calls code with _ | rows
  · right; simp
  · by_cases hrows : (0 < rows.length && !rows.isEmpty) = true
    · simp only [hrows, if_true]
      rcases hEn : s.fetchMeta (st.calls + 1) rows Lang.en with _ | en
      · left; simp
      · rcases hPt : s.fetchMeta (st.calls + 1 + 1) rows Lang.pt with _ | pt
        · left; simp
        · by_cases hen : (!en.isEmpty && 0 < en.length) = true <;>
            · left; simp [hen]
    · simp only [Bool.not_eq_true] at hrows
      simp only [hrows, Bool.false_eq_true, if_false]
      right; simp

theorem processCode_dataReqs (s : RService) (i : Nat) (code : Code) (st : RState) :
    dataReqs (processCode s i code st).trace = dataReqs st.trace ++ [[code]] := by
  simp only [processCode]
  rcases hd : s.fetchSingle st.calls code with _ | rows
  · by_cases hi : 0 < i <;> simp [hi, dataReqs_append, dataReqs]
  · by_cases hrows : (0 < rows.length && !rows.isEmpty) = true
    · simp only [hrows, if_true]
      rcases hEn : s.fetchMeta (st.calls + 1) rows Lang.en with _ | en
      · by_cases hi : 0 < i <;> simp [hi, dataReqs_append, dataReqs]
      · rcases hPt : s.fetchMeta (st.calls + 1 + 1) rows Lang.pt with _ | pt
        · by_cases hi : 0 < i <;> simp [hi, dataReqs_append, dataReqs]
        · by_cases hen : (!en.isEmpty && 0 < en.length) = true <;>
            · by_cases hi : 0 < i <;> simp [hi, hen, dataReqs_append, dataReqs]
    · simp only [Bool.not_eq_true] at hrows
      simp only [hrows, Bool.false_eq_true, if_false]
      by_cases hi : 0 < i <;> simp [hi, dataReqs_append, dataReqs]

theorem processCode_throttle (s : RService) (i : Nat) (code : Code) (st : RState) :
    throttleEvents (processCode s i code st).trace =
      throttleEvents st.trace ++
        (if 0 < i then [Ev.sleep 1, Ev.dataReq [code]] else [Ev.dataReq [code]]) := by
  simp only [processCode]
  rcases hd : s.fetchSingle st.calls code with _ | rows
  · by_cases hi : 0 < i <;> simp [hi, throttleEvents_append, throttleEvents]
  · by_cases hrows : (0 < rows.length && !rows.isEmpty) = true
    · simp only [hrows, if_true]
      rcases hEn : s.fetchMeta (st.calls + 1) rows Lang.en with _ | en
      · by_cases hi : 0 < i <;> simp [hi, throttleEvents_append, throttleEvents]
      · rcases hPt : s.fetchMeta (st.calls + 1 + 1) rows Lang.pt with _ | pt
        · by_cases hi : 0 < i <;> simp [hi, throttleEvents_append, throttleEvents]
        · by_cases hen : (!en.isEmpty && 0 < en.length) = true <;>
            · by_cases hi : 0 < i <;>
                simp [hi, hen, throttleEvents_append, throttleEvents]
    · simp only [Bool.not_eq_true] at hrows
      simp only [hrows, Bool.false_eq_true, if_false]
      by_cases hi : 0 < i <;> simp [hi, throttleEvents_append, throttleEvents]

/-- The throttled tail of the expected main-loop trace: a 1-second sleep
immediately before each request. -/
def throttledTail : List Code → List Ev
  | [] => []
  | c :: rest => Ev.sleep 1 :: Ev.dataReq [c] :: throttledTail rest

/-- The expected sequence of data requests and sleeps of the main loop:
no sleep before the first request, a sleep before every later one, over
the first 20 codes. -/
def mainExpected (codes : List Code) : List Ev :=
  match codes.take 20 with
  | [] => []
  | c :: rest => Ev.dataReq [c] :: throttledTail rest

theorem processCode_obsInv (s : RService) (i : Nat) (code : Code) (st : RState)
    (h : ∀ c ∈ st.successful, ∃ o, lookupT st.obsTable c = some o ∧ o ≠ []) :
    ∀ c ∈ (processCode s i code st).successful,
      ∃ o, lookupT (processCode s i code st).obsTable c = some o ∧ o ≠ [] := by
  have hstep :
      ∀ rows, (0 < rows.length && !rows.isEmpty) = true →
        ∀ c ∈ st.successful ++ [code],
          ∃ o, lookupT (setKey st.obsTable code rows) c = some o ∧ o ≠ [] := by
    intro rows hrows c hc
    have hne : rows ≠ [] := by
      rcases rows with _ | ⟨x, xs⟩
      · simp at hrows
      · simp
    rcases List.mem_append.mp hc with hc | hc
    · obtain ⟨o, ho, hne'⟩ := h c hc
      by_cases hcc : code = c
      · subst hcc
        exact ⟨rows, by simp [lookupT_setKey], hne⟩
      · exact ⟨o, by simp [lookupT_setKey, hcc, ho], hne'⟩
    · have : c = code := by simpa using hc
      subst this
      exact ⟨rows, by simp [lookupT_setKey], hne⟩
  simp only [processCode]
  rcases hd : s.fetchSingle st.calls code with _ | rows
  · simpa using h
  · by_cases hrows : (0 < rows.length && !rows.isEmpty) = true
    · simp only [hrows, if_true]
      rcases hEn : s.fetchMeta (st.calls + 1) rows Lang.en with _ | en
      · simpa using hstep rows hrows
      · rcases hPt : s.fetchMeta (st.calls + 1 + 1) rows Lang.pt with _ | pt
        · simpa using hstep rows hrows
        · by_cases hen : (!en.isEmpty && 0 < en.length) = true <;>
            · simp only [hen]
              simpa [hen] using hstep rows hrows
    · simp only [Bool.not_eq_true] at hrows
      simp only [hrows, Bool.false_eq_true, if_false]
      simpa using h

/-! ## Loop-level lemmas for the robust script -/

theorem processCode_perm (s : RService) (i : Nat) (code : Code) (st : RState) :
    ((processCode s i code st).successful ++ (processCode s i code st).failed).Perm
      ((st.successful ++ st.failed) ++ [code]) := by
  rcases processCode_sets s i code st with ⟨h1, h2⟩ | ⟨h1, h2⟩
  · rw [h1, h2, List.append_assoc, List.append_assoc]
    exact List.Perm.append_left st.successful List.perm_append_comm
  · rw [h1, h2, List.append_assoc]

theorem mainLoop_perm (s : RService) (codes : List Code) (i : Nat) (st : RState) :
    ((mainLoop s codes i st).successful ++ (mainLoop s codes i st).failed).Perm
      ((st.successful ++ st.failed) ++ codes.take (20 - i)) := by
  induction codes generalizing i st with
  | nil => simp [mainLoop]
  | cons code rest ih =>
    by_cases h20 : 20 ≤ i
    · have hz : 20 - i = 0 := by omega
      simp [mainLoop, h20, hz]
    · have hs : 20 - i = (20 - (i + 1)) + 1 := by omega
      rw [mainLoop]
      simp only [h20, if_false]
      rw [hs, List.take_succ_cons]
      have heq : ((st.successful ++ st.failed) ++ [code]) ++ rest.take (20 - (i + 1)) =
          (st.successful ++ st.failed) ++ (code :: rest.take (20 - (i + 1))) := by
        simp
      rw [← heq]
      exact (ih (i + 1) (processCode s i code st)).trans
        (List.Perm.append_right _ (processCode_perm s i code st))

theorem mainLoop_dataReqs (s : RService) (codes : List Code) (i : Nat) (st : RState) :
    dataReqs (mainLoop s codes i st).trace =
      dataReqs st.trace ++ (codes.take (20 - i)).map (fun c => [c]) := by
  induction codes generalizing i st with
  | nil => simp [mainLoop]
  | cons code rest ih =>
    by_cases h20 : 20 ≤ i
    · have hz : 20 - i = 0 := by omega
      simp [mainLoop, h20, hz]
    · have hs : 20 - i = (20 - (i + 1)) + 1 := by omega
      rw [mainLoop]
      simp only [h20, if_false]
      rw [hs, List.take_succ_cons, ih, processCode_dataReqs]
      simp

theorem mainLoop_throttle (s : RService) (codes : List Code) (i : Nat) (st : RState)
    (hi : 1 ≤ i) :
    throttleEvents (mainLoop s codes i st).trace =
      throttleEvents st.trace ++ throttledTail (codes.take (20 - i)) := by
  induction codes generalizing i st with
  | nil => simp [mainLoop, throttledTail]
  | cons code rest ih =>
    by_cases h20 : 20 ≤ i
    · have hz : 20 - i = 0 := by omega
      simp [mainLoop, h20, hz, throttledTail]
    · have hs : 20 - i = (20 - (i + 1)) + 1 := by omega
      rw [mainLoop]
      simp only [h20, if_false]
      rw [hs, List.take_succ_cons, ih (i + 1) _ (by omega), processCode_throttle]
      have hip : 0 < i := hi
      simp [hip, throttleEvents_append, throttleEvents, throttledTail]

theorem mainLoop_obsInv (s : RService) (codes : List Code) (i : Nat) (st : RState)
    (h : ∀ c ∈ st.successful, ∃ o, lookupT st.obsTable c = some o ∧ o ≠ []) :
    ∀ c ∈ (mainLoop s codes i st).successful,
      ∃ o, lookupT (mainLoop s codes i st).obsTable c = some o ∧ o ≠ [] := by
  induction codes generalizing i st with
  | nil => simpa [mainLoop] using h
  | cons code rest ih =>
    by_cases h20 : 20 ≤ i
    · simpa [mainLoop, h20] using h
    · rw [mainLoop]
      simp only [h20, if_false]
      exact ih (i + 1) _ (processCode_obsInv s i code st h)

/-! ## Lemmas about the test loop -/

theorem testAux_fields (l : List Code) (st : RState) :
    (l.foldl testStep st).successful = st.successful ∧
    (l.foldl testStep st).failed = st.failed ∧
    (l.foldl testStep st).metadataList = st.metadataList ∧
    (l.foldl testStep st).obsTable = st.obsTable ∧
    dataReqs (l.foldl testStep st).trace =
      dataReqs st.trace ++ l.map (fun c => [c]) := by
  induction l generalizing st with
  | nil => simp
  | cons c rest ih =>
    obtain ⟨h1, h2, h3, h4, h5⟩ := ih (testStep st c)
    rw [List.foldl_cons]
    refine ⟨by rw [h1]; rfl, by rw [h2]; rfl, by rw [h3]; rfl,
      by rw [h4]; rfl, ?_⟩
    rw [h5]
    simp [testStep, dataReqs_append, dataReqs]

theorem testLoop_successful (s : RService) (codes : List Code) (st : RState) :
    (testLoop s codes st).successful = st.successful :=
  (testAux_fields (codes.take 3) st).1

theorem testLoop_failed (s : RService) (codes : List Code) (st : RState) :
    (testLoop s codes st).failed = st.failed :=
  (testAux_fields (codes.take 3) st).2.1

theorem testLoop_metadataList (s : RService) (codes : List Code) (st : RState) :
    (testLoop s codes st).metadataList = st.metadataList :=
  (testAux_fields (codes.take 3) st).2.2.1

theorem testLoop_obsTable (s : RService) (codes : List Code) (st : RState) :
    (testLoop s codes st).obsTable = st.obsTable :=
  (testAux_fields (codes.take 3) st).2.2.2.1

theorem testLoop_dataReqs (s : RService) (codes : List Code) (st : RState) :
    dataReqs (testLoop s codes st).trace =
      dataReqs st.trace ++ (codes.take 3).map (fun c => [c]) :=
  (testAux_fields (codes.take 3) st).2.2.2.2

/-- After a full robust run, the codes of the successful and failed
lists are, as a multiset, exactly the first twenty input codes. -/
theorem runRobust_perm (s : RService) (codes : List Code) :
    ((runRobust s codes).successful ++ (runRobust s codes).failed).Perm
      (codes.take 20) := by
  unfold runRobust
  have h := mainLoop_perm s codes 0 (testLoop s codes (initRState 0))
  rw [testLoop_successful, testLoop_failed] at h
  simpa [initRState] using h

/-! ## Claims about the robust script -/

/-- A service whose fourth main-loop data call raises (run-wide remote
call number 6) and which otherwise returns one observation; metadata
calls return an empty list. -/
def svcC2 : RService :=
  { fetchSingle := fun n _ => if n == 6 then none else some [0]
    fetchMeta := fun _ _ _ => some [] }

/-- An input list of 22 codes whose first two entries are the same
code 7. -/
def codesC2 : List Code := 7 :: 7 :: (List.range 20).map (fun k => k + 1)

/-- C2 is false as stated: with 22 input codes whose first two entries
are both 7, and a service that succeeds on the first main-loop request
for 7 but raises on the second, code 7 ends up in both the successful
and the failed list (they are not disjoint), and code 20 (the 22nd
entry) is in neither list because the script stops after 20 codes, so
the union is not the input set. -/
theorem c2_outcome_partition_counterexample :
    7 ∈ (runRobust svcC2 codesC2).successful ∧
    7 ∈ (runRobust svcC2 codesC2).failed ∧
    20 ∈ codesC2 ∧
    20 ∉ (runRobust svcC2 codesC2).successful ∧
    20 ∉ (runRobust svcC2 codesC2).failed := by decide

/-- C2 (amended): for every input list whose first `min 20 n` entries
are pairwise distinct, the successful and failed lists are disjoint and
their union is exactly the set of those first `min 20 n` entries (the
whole input set only when the input has at most 20 entries). -/
theorem c2_outcome_partition_amended (s : RService) (codes : List Code)
    (hnd : (codes.take 20).Nodup) :
    (∀ c, ¬(c ∈ (runRobust s codes).successful ∧
      c ∈ (runRobust s codes).failed)) ∧
    (∀ c, (c ∈ (runRobust s codes).successful ∨
      c ∈ (runRobust s codes).failed) ↔ c ∈ codes.take 20) := by
  have hp := runRobust_perm s codes
  have hnd' : ((runRobust s codes).successful ++ (runRobust s codes).failed).Nodup :=
    hp.nodup_iff.mpr hnd
  constructor
  · rintro c ⟨hcs, hcf⟩
    exact List.disjoint_of_nodup_append hnd' hcs hcf
  · intro c
    rw [← List.mem_append]
    exact hp.mem_iff

/-- Closed witness for the amended C2 at a concrete service and input. -/
theorem c2_outcome_partition_amended_witness :
    (([3, 8, 5] : List Code).take 20).Nodup ∧
    ((∀ c, ¬(c ∈ (runRobust svcC2 [3, 8, 5]).successful ∧
        c ∈ (runRobust svcC2 [3, 8, 5]).failed)) ∧
      (∀ c, (c ∈ (runRobust svcC2 [3, 8, 5]).successful ∨
        c ∈ (runRobust svcC2 [3, 8, 5]).failed) ↔ c ∈ ([3, 8, 5] : List Code).take 20)) :=
  ⟨by decide, c2_outcome_partition_amended svcC2 [3, 8, 5] (by decide)⟩

/-- C5: with more than 20 input codes, the remote data requests of a
run are exactly one request per code of the test prefix (first three
codes) followed by one request per code of the first 20 codes, exactly
20 codes are attempted, and the successful and failed lists together
hold exactly the first 20 codes, so later codes are neither attempted
nor counted as failed. -/
theorem c5_processing_limit (s : RService) (codes : List Code)
    (h : 20 < codes.length) :
    dataReqs (runRobust s codes).trace =
      ((codes.take 3) ++ codes.take 20).map (fun c => [c]) ∧
    (codes.take 20).length = 20 ∧
    ((runRobust s codes).successful ++ (runRobust s codes).failed).Perm
      (codes.take 20) := by
  refine ⟨?_, ?_, runRobust_perm s codes⟩
  · unfold runRobust
    rw [mainLoop_dataReqs, testLoop_dataReqs]
    simp [initRState, dataReqs]
  · rw [List.length_take]
    omega

/-- Closed witness for C5 on a 21-code input. -/
theorem c5_processing_limit_witness :
    20 < ((List.range 21).map (fun k => k + 100)).length ∧
    (dataReqs (runRobust svcC2 ((List.range 21).map (fun k => k + 100))).trace =
        ((((List.range 21).map (fun k => k + 100)).take 3) ++
          ((List.range 21).map (fun k => k + 100)).take 20).map (fun c => [c]) ∧
      (((List.range 21).map (fun k => k + 100)).take 20).length = 20 ∧
      ((runRobust svcC2 ((List.range 21).map (fun k => k + 100))).successful ++
        (runRobust svcC2 ((List.range 21).map (fun k => k + 100))).failed).Perm
          (((List.range 21).map (fun k => k + 100)).take 20)) :=
  ⟨by decide, c5_processing_limit svcC2 _ (by decide)⟩

/-- C6: every code in the successful list has an entry with at least
one observation in the combined observation table; a code whose request
succeeds with an empty series is classified as failed, never as
successful. -/
theorem c6_successful_has_observations (s : RService) (codes : List Code)
    (c : Code) (h : c ∈ (runRobust s codes).successful) :
    ∃ o, lookupT (runRobust s codes).obsTable c = some o ∧ o ≠ [] := by
  unfold runRobust at h ⊢
  refine mainLoop_obsInv s codes 0 _ ?_ c h
  rw [testLoop_successful]
  intro c hc
  simp [initRState] at hc

/-- A service that always returns one observation and empty metadata
lists. -/
def svcOk : RService :=
  { fetchSingle := fun _ _ => some [0]
    fetchMeta := fun _ _ _ => some [] }

/-- Closed witness for C6 at a concrete service and input. -/
theorem c6_successful_has_observations_witness :
    4 ∈ (runRobust svcOk [4]).successful ∧
    (∃ o, lookupT (runRobust svcOk [4]).obsTable 4 = some o ∧ o ≠ []) :=
  ⟨by decide, c6_successful_has_observations svcOk [4] 4 (by decide)⟩

/-- C7 is false as stated: on the input `[5, 6]` with an always
succeeding service, the first two single-identifier requests of the run
come from the preliminary test loop and are issued back to back, with
no delay anywhere before them, so the second individual request of the
run is not preceded by a delay. -/
theorem c7_throttle_counterexample :
    (runRobust svcOk [5, 6]).trace.take 2 =
      [Ev.dataReq [5], Ev.dataReq [6]] ∧
    Ev.sleep 1 ∉ (runRobust svcOk [5, 6]).trace.take 2 := by decide

/-- C7 (amended): within the main per-identifier loop, a 1-second delay
is taken immediately before every single-identifier data request except
the request of the first main-loop iteration, which is unthrottled; the
preliminary test loop that precedes the main loop issues its requests
without any delay. -/
theorem c7_throttle_amended (s : RService) (codes : List Code) (n : Nat) :
    throttleEvents (mainLoop s codes 0 (initRState n)).trace =
      mainExpected codes := by
  cases codes with
  | nil => rfl
  | cons c rest =>
    rw [mainLoop]
    simp only [show ¬(20 ≤ 0) by omega, if_false]
    rw [mainLoop_throttle s rest 1 _ (by omega), processCode_throttle]
    simp [initRState, throttleEvents, mainExpected, throttleEvents_append]

/-- C8: when the data request for a code succeeds with a non-empty
series but a subsequent metadata call raises (either locale), the code
is still appended to the successful list, the failed list is unchanged,
and no metadata record is appended. -/
theorem c8_metadata_failure_still_successful (s : RService) (i : Nat)
    (code : Code) (st : RState) (rows : List Obs)
    (hd : s.fetchSingle st.calls code = some rows)
    (hrows : rows ≠ [])
    (hmeta : s.fetchMeta (st.calls + 1) rows Lang.en = none ∨
      (∃ en, s.fetchMeta (st.calls + 1) rows Lang.en = some en ∧
        s.fetchMeta (st.calls + 1 + 1) rows Lang.pt = none)) :
    (processCode s i code st).successful = st.successful ++ [code] ∧
    (processCode s i code st).metadataList = st.metadataList ∧
    (processCode s i code st).failed = st.failed := by
  have hb : (0 < rows.length && !rows.isEmpty) = true := by
    rcases rows with _ | ⟨x, xs⟩
    · exact absurd rfl hrows
    · simp
  simp only [processCode, hd, hb, if_true]
  rcases hmeta with hEn | ⟨en, hEn, hPt⟩
  · simp [hEn]
  · simp [hEn, hPt]

/-- A service whose metadata calls always raise. -/
def svcMetaRaise : RService :=
  { fetchSingle := fun _ _ => some [0]
    fetchMeta := fun _ _ _ => none }

/-- Closed witness for C8 at a concrete service and state. -/
theorem c8_metadata_failure_still_successful_witness :
    svcMetaRaise.fetchSingle (initRState 0).calls 9 = some [0] ∧
    ([0] : List Obs) ≠ [] ∧
    (svcMetaRaise.fetchMeta ((initRState 0).calls + 1) [0] Lang.en = none ∨
      (∃ en, svcMetaRaise.fetchMeta ((initRState 0).calls + 1) [0] Lang.en = some en ∧
        svcMetaRaise.fetchMeta ((initRState 0).calls + 1 + 1) [0] Lang.pt = none)) ∧
    ((processCode svcMetaRaise 0 9 (initRState 0)).successful =
        (initRState 0).successful ++ [9] ∧
      (processCode svcMetaRaise 0 9 (initRState 0)).metadataList =
        (initRState 0).metadataList ∧
      (processCode svcMetaRaise 0 9 (initRState 0)).failed =
        (initRState 0).failed) :=
  ⟨rfl, by decide, Or.inl rfl,
    c8_metadata_failure_still_successful svcMetaRaise 0 9 (initRState 0) [0]
      rfl (by decide) (Or.inl rfl)⟩

/-- C10: with both metadata calls returning, a metadata record is
appended exactly when the English-locale response list is non-empty; an
empty English response yields no record at all (whatever the Portuguese
response), and a record built from an empty Portuguese response has
empty-string Portuguese fields. -/
theorem c10_record_iff_english_nonempty (s : RService) (i : Nat)
    (code : Code) (st : RState) (rows : List Obs) (en pt : List MetaResp)
    (hd : s.fetchSingle st.calls code = some rows)
    (hrows : rows ≠ [])
    (hEn : s.fetchMeta (st.calls + 1) rows Lang.en = some en)
    (hPt : s.fetchMeta (st.calls + 1 + 1) rows Lang.pt = some pt) :
    ((processCode s i code st).metadataList =
        st.metadataList ++ [mkRecord code en pt] ↔ en ≠ []) ∧
    (en = [] → (processCode s i code st).metadataList = st.metadataList) ∧
    (mkRecord code en []).title_pt = "" ∧
    (mkRecord code en []).unit_pt = "" ∧
    (mkRecord code en []).source_pt = "" := by
  have hb : (0 < rows.length && !rows.isEmpty) = true := by
    rcases rows with _ | ⟨x, xs⟩
    · exact absurd rfl hrows
    · simp
  refine ⟨?_, ?_, rfl, rfl, rfl⟩
  · by_cases hen : en = []
    · subst hen
      simp only [processCode, hd, hb, if_true, hEn, hPt]
      simp only [List.isEmpty_nil]
      constructor
      · intro hlist
        simp at hlist
      · intro hne
        exact absurd rfl hne
    · have hbe : (!en.isEmpty && 0 < en.length) = true := by
        rcases en with _ | ⟨x, xs⟩
        · exact absurd rfl hen
        · simp
      simp only [processCode, hd, hb, if_true, hEn, hPt, hbe]
      simp [hen]
  · intro hen
    subst hen
    simp only [processCode, hd, hb, if_true, hEn, hPt]
    simp

/-- Closed witness for C10 at a concrete service and state, with a
non-empty Portuguese response and an empty English response. -/
theorem c10_record_iff_english_nonempty_witness :
    svcOk.fetchSingle (initRState 0).calls 9 = some [0] ∧
    ([0] : List Obs) ≠ [] ∧
    svcOk.fetchMeta ((initRState 0).calls + 1) [0] Lang.en = some [] ∧
    svcOk.fetchMeta ((initRState 0).calls + 1 + 1) [0] Lang.pt = some [] ∧
    (((processCode svcOk 0 9 (initRState 0)).metadataList =
        (initRState 0).metadataList ++ [mkRecord 9 [] []] ↔ ([] : List MetaResp) ≠ []) ∧
      (([] : List MetaResp) = [] →
        (processCode svcOk 0 9 (initRState 0)).metadataList =
          (initRState 0).metadataList) ∧
      (mkRecord 9 [] []).title_pt = "" ∧
      (mkRecord 9 [] []).unit_pt = "" ∧
      (mkRecord 9 [] []).source_pt = "") :=
  ⟨rfl, by decide, rfl, rfl,
    c10_record_iff_english_nonempty svcOk 0 9 (initRState 0) [0] [] []
      rfl (by decide) rfl rfl⟩

/-! ## Loop-level lemmas for the batch script -/

theorem fallbackLoop_spec (s : BService)
    (H2 : ∀ n c, ∃ col, s.fetchData n [c] = some [(c, col)]) :
    ∀ (batch : List Code) (st : BState),
      (fallbackLoop s batch st).failedB = st.failedB ∧
      ∀ c, ((lookupT st.allData c).isSome = true ∨ c ∈ batch) →
        (lookupT (fallbackLoop s batch st).allData c).isSome = true := by
  intro batch
  induction batch with
  | nil =>
    intro st
    exact ⟨rfl, fun c hc => by simpa [fallbackLoop] using hc.resolve_right (by simp)⟩
  | cons c0 rest ih =>
    intro st
    obtain ⟨col, hcol⟩ := H2 st.calls c0
    simp only [fallbackLoop, hcol]
    obtain ⟨ihf, ihl⟩ := ih
      { st with calls := st.calls + 1
                trace := st.trace ++ [Ev.dataReq [c0]]
                allData := updateTable st.allData [(c0, col)] }
    refine ⟨ihf, fun c hc => ?_⟩
    rcases hc with hc | hc
    · refine ihl c (Or.inl ?_)
      simp only [updateTable_single]
      exact isSome_lookupT_setKey _ _ _ _ hc
    · rcases List.mem_cons.mp hc with hc | hc
      · subst hc
        refine ihl c (Or.inl ?_)
        simp only [updateTable_single, lookupT_setKey]
        simp
      · exact ihl c (Or.inr hc)

theorem processBatch_spec (s : BService)
    (H1 : ∀ n ids, 2 ≤ ids.length → s.fetchData n ids = none)
    (H2 : ∀ n c, ∃ col, s.fetchData n [c] = some [(c, col)])
    (batch : List Code) (st : BState) :
    (processBatch s batch st).failedB = st.failedB ∧
    ∀ c, ((lookupT st.allData c).isSome = true ∨ c ∈ batch) →
      (lookupT (processBatch s batch st).allData c).isSome = true := by
  match batch with
  | [] =>
    rcases hr : s.fetchData st.calls [] with _ | tbl
    · simp only [processBatch, hr]
      obtain ⟨hf, hl⟩ := fallbackLoop_spec s H2 []
        { st with calls := st.calls + 1, trace := st.trace ++ [Ev.dataReq []] }
      exact ⟨hf, fun c hc => hl c (by simpa using hc)⟩
    · simp only [processBatch, hr]
      refine ⟨trivial, fun c hc => ?_⟩
      have hc' := hc.resolve_right (by simp)
      exact isSome_lookupT_updateTable _ _ _ hc'
  | [c0] =>
    obtain ⟨col, hcol⟩ := H2 st.calls c0
    simp only [processBatch, hcol]
    refine ⟨trivial, fun c hc => ?_⟩
    rcases hc with hc | hc
    · exact isSome_lookupT_updateTable _ _ _ hc
    · have hc0 : c = c0 := by simpa using hc
      subst hc0
      simp only [updateTable_single, lookupT_setKey]
      simp
  | a :: b :: t =>
    have hfail : s.fetchData st.calls (a :: b :: t) = none :=
      H1 _ _ (by simp)
    simp only [processBatch, hfail]
    obtain ⟨hf, hl⟩ := fallbackLoop_spec s H2 (a :: b :: t)
      { st with calls := st.calls + 1, trace := st.trace ++ [Ev.dataReq (a :: b :: t)] }
    exact ⟨hf, fun c hc => hl c (by simpa using hc)⟩

theorem batchLoop_spec (s : BService)
    (H1 : ∀ n ids, 2 ≤ ids.length → s.fetchData n ids = none)
    (H2 : ∀ n c, ∃ col, s.fetchData n [c] = some [(c, col)]) :
    ∀ (bs : List (List Code)) (st : BState),
      (batchLoop s bs st).failedB = st.failedB ∧
      ∀ c, ((lookupT st.allData c).isSome = true ∨ ∃ b ∈ bs, c ∈ b) →
        (lookupT (batchLoop s bs st).allData c).isSome = true := by
  intro bs
  induction bs with
  | nil =>
    intro st
    exact ⟨rfl, fun c hc => by simpa [batchLoop] using hc.resolve_right (by simp)⟩
  | cons b rest ih =>
    intro st
    obtain ⟨hpf, hpl⟩ := processBatch_spec s H1 H2 b st
    obtain ⟨ihf, ihl⟩ := ih (processBatch s b st)
    rw [batchLoop]
    refine ⟨by rw [ihf, hpf], fun c hc => ?_⟩
    rcases hc with hc | ⟨g, hg, hcg⟩
    · exact ihl c (Or.inl (hpl c (Or.inl hc)))
    · rcases List.mem_cons.mp hg with hg | hg
      · subst hg
        exact ihl c (Or.inl (hpl c (Or.inr hcg)))
      · exact ihl c (Or.inr ⟨g, hg, hcg⟩)

theorem finishBatch_preserves (s : BService) (st : BState) :
    (finishBatch s st).1.allData = st.allData ∧
    (finishBatch s st).1.failedB = st.failedB := by
  simp only [finishBatch]
  by_cases h : numRowsPos st.allData = true
  · simp only [h, if_true]
    rcases hEn : s.fetchMetaB st.calls st.allData Lang.en with _ | en
    · simp
    · rcases hPt : s.fetchMetaB (st.calls + 1) st.allData Lang.pt with _ | pt
      · simp [hPt]
      · simp [hPt]
  · simp [h]

theorem fallbackLoop_preserve (s : BService) : ∀ (batch : List Code) (st : BState),
    (fallbackLoop s batch st).metaEn = st.metaEn ∧
    (fallbackLoop s batch st).metaPt = st.metaPt ∧
    ∀ e ∈ (fallbackLoop s batch st).trace,
      e ∈ st.trace ∨ ∃ ids, e = Ev.dataReq ids := by
  intro batch
  induction batch with
  | nil => exact fun st => ⟨rfl, rfl, fun e he => Or.inl he⟩
  | cons c0 rest ih =>
    intro st
    rcases hr : s.fetchData st.calls [c0] with _ | tbl <;>
    · simp only [fallbackLoop, hr]
      refine ⟨(ih _).1, (ih _).2.1, fun e he => ?_⟩
      rcases (ih _).2.2 e he with hmem | hids
      · rcases List.mem_append.mp hmem with hmem | hmem
        · exact Or.inl hmem
        · exact Or.inr ⟨[c0], by simpa using hmem⟩
      · exact Or.inr hids

theorem processBatch_preserve (s : BService) (batch : List Code) (st : BState) :
    (processBatch s batch st).metaEn = st.metaEn ∧
    (processBatch s batch st).metaPt = st.metaPt ∧
    ∀ e ∈ (processBatch s batch st).trace,
      e ∈ st.trace ∨ ∃ ids, e = Ev.dataReq ids := by
  rcases hr : s.fetchData st.calls batch with _ | tbl
  · simp only [processBatch, hr]
    obtain ⟨h1, h2, h3⟩ := fallbackLoop_preserve s batch
      { st with calls := st.calls + 1, trace := st.trace ++ [Ev.dataReq batch] }
    refine ⟨h1, h2, fun e he => ?_⟩
    rcases h3 e he with hmem | hids
    · rcases List.mem_append.mp hmem with hmem | hmem
      · exact Or.inl hmem
      · exact Or.inr ⟨batch, by simpa using hmem⟩
    · exact Or.inr hids
  · simp only [processBatch, hr]
    refine ⟨trivial, trivial, fun e he => ?_⟩
    rcases List.mem_append.mp he with hmem | hmem
    · exact Or.inl hmem
    · exact Or.inr ⟨batch, by simpa using hmem⟩

theorem batchLoop_preserve (s : BService) : ∀ (bs : List (List Code)) (st : BState),
    (batchLoop s bs st).metaEn = st.metaEn ∧
    (batchLoop s bs st).metaPt = st.metaPt ∧
    ∀ e ∈ (batchLoop s bs st).trace,
      e ∈ st.trace ∨ ∃ ids, e = Ev.dataReq ids := by
  intro bs
  induction bs with
  | nil => exact fun st => ⟨rfl, rfl, fun e he => Or.inl he⟩
  | cons b rest ih =>
    intro st
    obtain ⟨p1, p2, p3⟩ := processBatch_preserve s b st
    obtain ⟨i1, i2, i3⟩ := ih (processBatch s b st)
    rw [batchLoop]
    refine ⟨by rw [i1, p1], by rw [i2, p2], fun e he => ?_⟩
    rcases i3 e he with hmem | hids
    · exact p3 e hmem
    · exact Or.inr hids

theorem fallbackLoop_dataReqs (s : BService) : ∀ (batch : List Code) (st : BState),
    dataReqs (fallbackLoop s batch st).trace =
      dataReqs st.trace ++ batch.map (fun c => [c]) := by
  intro batch
  induction batch with
  | nil => intro st; simp [fallbackLoop]
  | cons c0 rest ih =>
    intro st
    rcases hr : s.fetchData st.calls [c0] with _ | tbl <;>
    · simp only [fallbackLoop, hr]
      rw [ih]
      simp [dataReqs_append, dataReqs]

/-- The data requests issued while processing one group, under the C1
premise: the batched request itself, followed — when the group has at
least two codes, so that the batched request fails — by one individual
request per code of the group. -/
def fallbackReqs (b : List Code) : List (List Code) :=
  b :: (if 2 ≤ b.length then b.map (fun c => [c]) else [])

/-- The data requests issued over a whole partition, group by group. -/
def joinReqs : List (List Code) → List (List Code)
  | [] => []
  | b :: bs => fallbackReqs b ++ joinReqs bs

theorem processBatch_dataReqs (s : BService)
    (H1 : ∀ n ids, 2 ≤ ids.length → s.fetchData n ids = none)
    (H2 : ∀ n c, ∃ col, s.fetchData n [c] = some [(c, col)])
    (batch : List Code) (st : BState) :
    dataReqs (processBatch s batch st).trace =
      dataReqs st.trace ++ fallbackReqs batch := by
  match batch with
  | [] =>
    rcases hr : s.fetchData st.calls [] with _ | tbl
    · simp only [processBatch, hr]
      rw [fallbackLoop_dataReqs]
      simp [dataReqs_append, dataReqs, fallbackReqs]
    · simp only [processBatch, hr]
      simp [dataReqs_append, dataReqs, fallbackReqs]
  | [c0] =>
    obtain ⟨col, hcol⟩ := H2 st.calls c0
    simp only [processBatch, hcol]
    simp [dataReqs_append, dataReqs, fallbackReqs]
  | a :: b :: t =>
    have hfail : s.fetchData st.calls (a :: b :: t) = none :=
      H1 _ _ (by simp)
    simp only [processBatch, hfail]
    rw [fallbackLoop_dataReqs]
    simp [dataReqs_append, dataReqs, fallbackReqs]

theorem batchLoop_dataReqs (s : BService)
    (H1 : ∀ n ids, 2 ≤ ids.length → s.fetchData n ids = none)
    (H2 : ∀ n c, ∃ col, s.fetchData n [c] = some [(c, col)]) :
    ∀ (bs : List (List Code)) (st : BState),
      dataReqs (batchLoop s bs st).trace = dataReqs st.trace ++ joinReqs bs := by
  intro bs
  induction bs with
  | nil => intro st; simp [batchLoop, joinReqs]
  | cons b rest ih =>
    intro st
    rw [batchLoop, ih, processBatch_dataReqs s H1 H2]
    simp [joinReqs]

theorem finishBatch_dataReqs (s : BService) (st : BState) :
    dataReqs (finishBatch s st).1.trace = dataReqs st.trace := by
  simp only [finishBatch]
  by_cases h : numRowsPos st.allData = true
  · rw [if_pos h]
    rcases hEn : s.fetchMetaB st.calls st.allData Lang.en with _ | en
    · simp [dataReqs_append, dataReqs]
    · simp only [hEn]
      rcases hPt : s.fetchMetaB (st.calls + 1) st.allData Lang.pt with _ | pt
      · simp [hPt, dataReqs_append, dataReqs]
      · simp [hPt, dataReqs_append, dataReqs]
  · rw [if_neg h]

/-! ## Lemmas about chunking -/

theorem mem_joinAll (c : Code) : ∀ (bs : List (List Code)),
    c ∈ joinAll bs ↔ ∃ b ∈ bs, c ∈ b := by
  intro bs
  induction bs with
  | nil => simp [joinAll]
  | cons b rest ih => simp [joinAll, ih]

theorem chunks_join (g : Nat) (hg : 0 < g) : ∀ (l : List Code),
    joinAll (chunks g l) = l := by
  suffices h : ∀ (n : Nat) (l : List Code), l.length ≤ n →
      joinAll (chunks g l) = l from fun l => h l.length l le_rfl
  intro n
  induction n with
  | zero =>
    intro l hl
    have hnil : l = [] := by
      cases l with
      | nil => rfl
      | cons a t => simp at hl
    subst hnil
    rw [chunks]
    simp [joinAll]
  | succ n ih =>
    intro l hl
    by_cases hl0 : l = []
    · subst hl0
      rw [chunks]
      simp [joinAll]
    · rw [chunks]
      have hcond : ¬(l = [] ∨ g = 0) := by
        push_neg
        exact ⟨hl0, by omega⟩
      rw [dif_neg hcond]
      simp only [joinAll]
      rw [ih (l.drop g) (by simp [List.length_drop]; omega)]
      exact List.take_append_drop g l

/-! ## Claims about the batch script -/

/-- C1: when every batched request (two or more codes) raises but every
single-code request succeeds and returns that code's column, the run's
data requests are, for each group of the partition, the batched request
followed by one individual request per code of that (failed) group —
so the fallback path requests each identifier of each failed group
individually — and after processing the combined observation table has
an entry for every input code and no code is recorded as failed. -/
theorem c1_fallback_recovers_all (s : BService) (codes : List Code)
    (H1 : ∀ n ids, 2 ≤ ids.length → s.fetchData n ids = none)
    (H2 : ∀ n c, ∃ col, s.fetchData n [c] = some [(c, col)]) :
    dataReqs (runBatchScript s codes).1.trace = joinReqs (chunks 10 codes) ∧
    (∀ c ∈ codes, (lookupT (runBatchScript s codes).1.allData c).isSome = true) ∧
    (runBatchScript s codes).1.failedB = [] := by
  obtain ⟨hbf, hbl⟩ := batchLoop_spec s H1 H2 (chunks 10 codes) initBState
  obtain ⟨hfa, hff⟩ := finishBatch_preserves s (batchLoop s (chunks 10 codes) initBState)
  unfold runBatchScript
  refine ⟨?_, ?_, ?_⟩
  · rw [finishBatch_dataReqs, batchLoop_dataReqs s H1 H2]
    simp [initBState, dataReqs]
  · intro c hc
    rw [hfa]
    refine hbl c (Or.inr ?_)
    rw [← mem_joinAll, chunks_join 10 (by omega) codes]
    exact hc
  · rw [hff, hbf]
    rfl

/-- A batch service that raises on non-singleton requests and returns
the requested column on singleton requests; bulk metadata calls return
empty lists. -/
def svcSingles : BService :=
  { fetchData := fun _ ids =>
      match ids with
      | [c] => some [(c, [0])]
      | _ => none
    fetchMetaB := fun _ _ _ => some [] }

/-- Closed witness for C1 on an 11-code input (two groups: one of ten
codes that raises and falls back, one singleton group). -/
theorem c1_fallback_recovers_all_witness :
    (∀ n ids, 2 ≤ ids.length → svcSingles.fetchData n ids = none) ∧
    (∀ n c, ∃ col, svcSingles.fetchData n [c] = some [(c, col)]) ∧
    (dataReqs (runBatchScript svcSingles
        [1, 2, 3, 4, 5, 6, 7, 8, 9, 10, 11]).1.trace =
        joinReqs (chunks 10 [1, 2, 3, 4, 5, 6, 7, 8, 9, 10, 11]) ∧
      (∀ c ∈ ([1, 2, 3, 4, 5, 6, 7, 8, 9, 10, 11] : List Code),
        (lookupT (runBatchScript svcSingles
          [1, 2, 3, 4, 5, 6, 7, 8, 9, 10, 11]).1.allData c).isSome = true) ∧
      (runBatchScript svcSingles [1, 2, 3, 4, 5, 6, 7, 8, 9, 10, 11]).1.failedB = []) :=
  have h1 : ∀ n ids, 2 ≤ ids.length → svcSingles.fetchData n ids = none := by
    intro n ids h
    match ids with
    | [] => simp at h
    | [c] => simp at h
    | a :: b :: t => rfl
  have h2 : ∀ n c, ∃ col, svcSingles.fetchData n [c] = some [(c, col)] :=
    fun n c => ⟨[0], rfl⟩
  ⟨h1, h2, c1_fallback_recovers_all svcSingles [1, 2, 3, 4, 5, 6, 7, 8, 9, 10, 11] h1 h2⟩

/-- A batch service whose data calls always succeed with one column for
code 1 but whose bulk metadata calls always raise. -/
def svcCrash : BService :=
  { fetchData := fun _ _ => some [(1, [0])]
    fetchMetaB := fun _ _ _ => none }

/-- C3 is false as stated: the two bulk metadata calls of the batch
script (lines 40-41) are outside every `try`, so a service whose data
calls succeed but whose bulk metadata call raises makes an exception
escape the script, which aborts instead of exiting cleanly. -/
theorem c3_no_escape_counterexample :
    (runBatchScript svcCrash [1]).2 = true := by
  have hc : chunks 10 [1] = [[1]] := by
    rw [chunks]
    simp
    rw [chunks]
    simp
  show (finishBatch svcCrash (batchLoop svcCrash (chunks 10 [1]) initBState)).2 = true
  rw [hc]
  decide

/-- C3 (amended): every data-call failure, at group or item
granularity, is caught, and the data-retrieval loop always runs to
completion; but a raise of a bulk metadata call escapes uncaught.
Whenever the bulk metadata calls never raise, the batch script exits
cleanly for every behaviour of the data calls. -/
theorem c3_no_escape_amended (s : BService) (codes : List Code)
    (hmeta : ∀ n t lang, s.fetchMetaB n t lang ≠ none) :
    (runBatchScript s codes).2 = false := by
  unfold runBatchScript
  generalize batchLoop s (chunks 10 codes) initBState = st
  simp only [finishBatch]
  by_cases h : numRowsPos st.allData = true
  · simp only [h, if_true]
    rcases hEn : s.fetchMetaB st.calls st.allData Lang.en with _ | en
    · exact absurd hEn (hmeta _ _ _)
    · simp only [hEn]
      rcases hPt : s.fetchMetaB (st.calls + 1) st.allData Lang.pt with _ | pt
      · exact absurd hPt (hmeta _ _ _)
      · simp [hPt]
  · simp [h]

/-- A batch service whose metadata calls always return an empty list. -/
def svcMetaOkB : BService :=
  { fetchData := fun _ _ => some [(1, [0])]
    fetchMetaB := fun _ _ _ => some [] }

/-- Closed witness for the amended C3. -/
theorem c3_no_escape_amended_witness :
    (∀ n t lang, svcMetaOkB.fetchMetaB n t lang ≠ none) ∧
    (runBatchScript svcMetaOkB [1]).2 = false :=
  ⟨fun n t lang h => Option.noConfusion h,
    c3_no_escape_amended svcMetaOkB [1] (fun n t lang h => Option.noConfusion h)⟩

/-- C4 is false as stated: with one code whose data call succeeds and a
service whose English-locale bulk metadata call raises, the combined
table is non-empty yet the run's whole trace is one data request and
one English metadata request, so no Portuguese-locale bulk request is
ever issued even though the table is non-empty. -/
theorem c4_bulk_metadata_counterexample :
    numRowsPos (runBatchScript svcCrash [1]).1.allData = true ∧
    (runBatchScript svcCrash [1]).1.trace =
      [Ev.dataReq [1], Ev.metaReq [1] Lang.en] := by
  have hc : chunks 10 [1] = [[1]] := by
    rw [chunks]
    simp
    rw [chunks]
    simp
  show numRowsPos (finishBatch svcCrash
        (batchLoop svcCrash (chunks 10 [1]) initBState)).1.allData = true ∧
      (finishBatch svcCrash (batchLoop svcCrash (chunks 10 [1]) initBState)).1.trace =
        [Ev.dataReq [1], Ev.metaReq [1] Lang.en]
  rw [hc]
  decide

/-- C4 (amended): iff the combined observation table has at least one
observation, one bulk English-locale metadata request covering every
retrieved identifier is issued; the Portuguese-locale bulk request is
issued iff additionally the English call returns without raising; and
whenever the metadata phase aborts the run, no metadata records exist
for the retrieved identifiers. -/
theorem c4_bulk_metadata_amended (s : BService) (codes : List Code) :
    (numRowsPos (batchLoop s (chunks 10 codes) initBState).allData = true ↔
      Ev.metaReq (keysOf (batchLoop s (chunks 10 codes) initBState).allData) Lang.en ∈
        (runBatchScript s codes).1.trace) ∧
    (Ev.metaReq (keysOf (batchLoop s (chunks 10 codes) initBState).allData) Lang.pt ∈
        (runBatchScript s codes).1.trace ↔
      (numRowsPos (batchLoop s (chunks 10 codes) initBState).allData = true ∧
        s.fetchMetaB (batchLoop s (chunks 10 codes) initBState).calls
          (batchLoop s (chunks 10 codes) initBState).allData Lang.en ≠ none)) ∧
    ((runBatchScript s codes).2 = true →
      (runBatchScript s codes).1.metaEn = none ∧
      (runBatchScript s codes).1.metaPt = none) := by
  unfold runBatchScript
  obtain ⟨hme, hmp, htr⟩ := batchLoop_preserve s (chunks 10 codes) initBState
  set st := batchLoop s (chunks 10 codes) initBState with hst
  have hMetaE : st.metaEn = none := hme
  have hMetaP : st.metaPt = none := hmp
  have hnone : ∀ lang, Ev.metaReq (keysOf st.allData) lang ∉ st.trace := by
    intro lang hmem
    rcases htr _ hmem with hmem0 | ⟨ids, he⟩
    · simp [initBState] at hmem0
    · exact Ev.noConfusion he
  simp only [finishBatch]
  by_cases h : numRowsPos st.allData = true
  · rw [if_pos h]
    rcases hEn : s.fetchMetaB st.calls st.allData Lang.en with _ | en
    · simp only [hEn]
      refine ⟨⟨fun _ => ?_, fun _ => h⟩, ⟨fun hmem => ?_, ?_⟩, fun _ => ?_⟩
      · exact List.mem_append.mpr (Or.inr (by simp))
      · exfalso
        rcases List.mem_append.mp hmem with hmem | hmem
        · exact hnone _ hmem
        · have heq := List.mem_singleton.mp hmem
          exact Lang.noConfusion (congrArg (fun e =>
            match e with
            | Ev.metaReq _ l => l
            | _ => Lang.en) heq)
      · rintro ⟨_, hne⟩
        exact absurd rfl hne
      · exact ⟨hMetaE, hMetaP⟩
    · simp only [hEn]
      rcases hPt : s.fetchMetaB (st.calls + 1) st.allData Lang.pt with _ | pt
      · simp only [hPt]
        refine ⟨⟨fun _ => ?_, fun _ => h⟩,
          ⟨fun _ => ⟨h, by simp⟩, fun _ => ?_⟩, fun _ => ?_⟩
        · exact List.mem_append.mpr (Or.inl (List.mem_append.mpr (Or.inr (by simp))))
        · exact List.mem_append.mpr (Or.inr (by simp))
        · exact ⟨hMetaE, hMetaP⟩
      · simp only [hPt]
        refine ⟨⟨fun _ => ?_, fun _ => h⟩,
          ⟨fun _ => ⟨h, by simp⟩, fun _ => ?_⟩, by simp⟩
        · exact List.mem_append.mpr (Or.inl (List.mem_append.mpr (Or.inr (by simp))))
        · exact List.mem_append.mpr (Or.inr (by simp))
  · rw [if_neg h]
    refine ⟨⟨fun hh => absurd hh h, fun hmem => absurd hmem (hnone _)⟩,
      ⟨fun hmem => absurd hmem (hnone _), ?_⟩, by simp⟩
    rintro ⟨hh, _⟩
    exact absurd hh h

/-! ## Order-independence of the keyed merge -/

/-- The value for key `c` in the first table of the list that contains
`c`, if any. -/
def firstHit (c : Code) : List Table → Option (List Obs)
  | [] => none
  | t :: ts =>
    match lookupT t c with
    | some v => some v
    | none => firstHit c ts

/-- At most one table of the list holds key `c`. -/
def OneAt (c : Code) (ts : List Table) : Prop :=
  List.Pairwise
    (fun t u => (lookupT t c).isSome = true → (lookupT u c).isSome = true → False) ts

theorem firstHit_eq_none (c : Code) : ∀ (ts : List Table),
    (∀ t ∈ ts, lookupT t c = none) → firstHit c ts = none := by
  intro ts
  induction ts with
  | nil => intro _; rfl
  | cons t rest ih =>
    intro h
    have ht := h t (by simp)
    simp only [firstHit, ht]
    exact ih (fun u hu => h u (by simp [hu]))

theorem lookupT_foldl_update (c : Code) : ∀ (ts : List Table) (acc : Table),
    (∀ t ∈ ts, (keysOf t).Nodup) → OneAt c ts →
    lookupT (ts.foldl updateTable acc) c =
      match firstHit c ts with
      | some v => some v
      | none => lookupT acc c := by
  intro ts
  induction ts with
  | nil => intro acc _ _; simp [firstHit]
  | cons t rest ih =>
    intro acc hnd hone
    obtain ⟨hhead, htail⟩ := List.pairwise_cons.mp hone
    have hndr : ∀ u ∈ rest, (keysOf u).Nodup := fun u hu => hnd u (by simp [hu])
    have hupd := lookupT_updateTable acc t c (hnd t (by simp))
    rw [List.foldl_cons, ih (updateTable acc t) hndr htail]
    rcases hTc : lookupT t c with _ | v
    · rw [hTc] at hupd
      simp only [firstHit, hTc]
      cases hfh : firstHit c rest <;> simp [hfh, hupd]
    · have hrestnone : ∀ u ∈ rest, lookupT u c = none := by
        intro u hu
        rcases hlu : lookupT u c with _ | w
        · rfl
        · exact absurd (hhead u hu (by simp [hTc]) (by simp [hlu])) not_false
      have hfhr : firstHit c rest = none := firstHit_eq_none c rest hrestnone
      rw [hTc] at hupd
      simp only [firstHit, hTc, hfhr]
      exact hupd

theorem firstHit_perm (c : Code) (ts tsB : List Table) (hperm : ts.Perm tsB) :
    OneAt c ts → firstHit c ts = firstHit c tsB := by
  induction hperm with
  | nil => intro _; rfl
  | cons x hp ih =>
    intro hone
    obtain ⟨_, htail⟩ := List.pairwise_cons.mp hone
    simp only [firstHit]
    rw [ih htail]
  | swap x y l =>
    intro hone
    obtain ⟨h1, _⟩ := List.pairwise_cons.mp hone
    rcases hy : lookupT y c with _ | vy <;> rcases hx : lookupT x c with _ | vx <;>
      simp only [firstHit, hy, hx]
    exact absurd (h1 x (by simp) (by simp [hy]) (by simp [hx])) not_false
  | trans h1 h2 ih1 ih2 =>
    intro hone
    rw [ih1 hone, ih2 ((h1.pairwise_iff (fun {t u} hab hb ha => hab ha hb)).mp hone)]

/-- C9 is false as stated: identifier uniqueness is not enforced, so a
code duplicated across two groups can come back with a different column
in each group result (the remote service may answer each call
differently), and the `dict.update` merge is then order-dependent: the
later merge wins, so the two merge orders give different combined
tables at that key. -/
theorem c9_merge_order_counterexample :
    ([[(1, [10])], [(1, [20])]] : List Table).Perm [[(1, [20])], [(1, [10])]] ∧
    lookupT (mergeAll [[(1, [10])], [(1, [20])]]) 1 = some [20] ∧
    lookupT (mergeAll [[(1, [20])], [(1, [10])]]) 1 = some [10] :=
  ⟨List.Perm.swap _ _ _, by decide, by decide⟩

/-- C9 (amended): merging group-result tables keyed by identifier is
independent of the merge order whenever the tables have duplicate-free,
pairwise-disjoint key sets — as partitioning a duplicate-free
identifier list into groups produces: every permutation of the merge
order yields a combined table with identical lookups.  With an
identifier duplicated across groups the merge is order-dependent (the
later merge wins). -/
theorem c9_merge_order_independent (ts tsB : List Table) (c : Code)
    (hperm : ts.Perm tsB)
    (hnd : ∀ t ∈ ts, (keysOf t).Nodup)
    (hdisj : List.Pairwise DisjKeys ts) :
    lookupT (mergeAll ts) c = lookupT (mergeAll tsB) c := by
  have hone : OneAt c ts := by
    refine hdisj.imp ?_
    intro t u hd ht hu
    exact hd c ((mem_keysOf_iff t c).mpr ht) ((mem_keysOf_iff u c).mpr hu)
  have honeB : OneAt c tsB :=
    (hperm.pairwise_iff (fun {t u} hab hb ha => hab ha hb)).mp hone
  have hndB : ∀ t ∈ tsB, (keysOf t).Nodup := fun t ht =>
    hnd t (hperm.mem_iff.mpr ht)
  unfold mergeAll
  rw [lookupT_foldl_update c ts [] hnd hone,
    lookupT_foldl_update c tsB [] hndB honeB,
    firstHit_perm c ts tsB hperm hone]

/-- A first concrete group-result table. -/
def tblA : Table := [(1, [10])]

/-- A second concrete group-result table, keys disjoint from `tblA`. -/
def tblB : Table := [(2, [20]), (3, [30])]

/-- Closed witness for C9: swapping the two group results leaves the
lookup of key 2 in the merged table unchanged. -/
theorem c9_merge_order_independent_witness :
    ([tblA, tblB] : List Table).Perm [tblB, tblA] ∧
    (∀ t ∈ ([tblA, tblB] : List Table), (keysOf t).Nodup) ∧
    List.Pairwise DisjKeys [tblA, tblB] ∧
    lookupT (mergeAll [tblA, tblB]) 2 = lookupT (mergeAll [tblB, tblA]) 2 :=
  have hperm : ([tblA, tblB] : List Table).Perm [tblB, tblA] :=
    List.Perm.swap tblB tblA []
  have hnd : ∀ t ∈ ([tblA, tblB] : List Table), (keysOf t).Nodup := by decide
  have hdisj : List.Pairwise DisjKeys [tblA, tblB] := by decide
  ⟨hperm, hnd, hdisj,
    c9_merge_order_independent [tblA, tblB] [tblB, tblA] 2 hperm hnd hdisj⟩

end Bacen
